import Mathlib

/-!
# Verification of the trollduction production pipeline core

A shallow embedding of the core logic of `trollduction/producer.py`:

* the coverage gates `covers` and `generic_covers`,
* the mask boundary tracer `get_polygons_positions`,
* the color parser `hash_color`,
* the writer thread `DataWriter.run` (file mode computation, per-batch
  completion tracking),
* the processing entry point `DataProcessor.run` (as an event trace:
  loads, enqueues, the queue-drain barrier, memory release),
* the orchestrator loop `Trollduction.run_single` (dedup record with
  explicit reference semantics, retry policy, error propagation).

Python floats are modelled as rationals, machine integers as `Int`/`Nat`,
raised exceptions as explicit error values or outcome parameters, and the
external capabilities (scene construction, reprojection, geometry) as
opaque data supplied by the caller.
-/

namespace Producer

/-! ## Coverage evaluation (`covers`, lines 233-253; `generic_covers`, lines 371-388) -/

/-- An `<area>` item of the product configuration.  `min_coverage` models
`area_item.attrib.get('min_coverage', 0)` after `float` parsing (absent
attribute = `none`, defaulted to `0`). -/
structure AreaItem where
  id : String
  name : String
  min_coverage : Option ℚ
deriving Repr

/-- Area definitions returned by the external lookup
`mpop.projector.get_area_def` are opaque to the logic checked here, so a
region is identified by its id. -/
abbrev AreaDef := String

/-- External region lookup (`mpop.projector.get_area_def`). -/
def get_area_def (i : String) : AreaDef := i

/-- A ground-track overpass model (`trollsched.satpass.Pass`), abstracted to
its `area_coverage` query.  A `none` result models the `AttributeError`
branch of `covers` (coverage not computable from the overpass object). -/
structure Overpass where
  area_coverage : AreaDef → Option ℚ

/-- `covers(overpass, area_item)` (producer.py lines 233-253).  Returns
`true` ("covered") when the threshold is zero or no overpass model is
present; an `AttributeError` while computing the coverage also yields
`true`.  Otherwise the area is excluded exactly when the fractional
coverage is `≤ min_coverage / 100`. -/
def covers (overpass : Option Overpass) (area_item : AreaItem) : Bool :=
  let min_coverage : ℚ := area_item.min_coverage.getD 0
  if min_coverage = 0 || overpass.isNone then
    true
  else
    match overpass with
    | none => true
    | some op =>
      match op.area_coverage (get_area_def area_item.id) with
      | none => true
      | some cov => if cov ≤ min_coverage / 100 then false else true

/-- `generic_covers(scene, area_item)` (producer.py lines 371-388).  The
in-repository `coverage(scene, area_def)` computation rests on external
polygon-intersection geometry, so it is abstracted to the function
argument `coverage`.  No exception handler here: a failure propagates. -/
def generic_covers (coverage : AreaDef → ℚ) (area_item : AreaItem) : Bool :=
  let area_def := get_area_def area_item.id
  let min_coverage : ℚ := area_item.min_coverage.getD 0
  if min_coverage = 0 then
    true
  else if coverage area_def ≤ min_coverage / 100 then
    false
  else
    true

/-! ## Color parsing (`hash_color`, lines 1069-1078) -/

/-- Python exception classes that the embedded fragments raise. -/
inductive PyError
  | valueError
  | indexError
deriving Repr, DecidableEq

/-- Value of a single hexadecimal digit, as accepted by `int(_, 16)`. -/
def hexDigitVal (c : Char) : Option Nat :=
  if '0' ≤ c ∧ c ≤ '9' then some (c.toNat - '0'.toNat)
  else if 'a' ≤ c ∧ c ≤ 'f' then some (c.toNat - 'a'.toNat + 10)
  else if 'A' ≤ c ∧ c ≤ 'F' then some (c.toNat - 'A'.toNat + 10)
  else none

/-- `int(n, 16)` on the two-character slices taken by `hash_color`.
(The tolerance of `int` for surrounding whitespace and sign characters is
not modelled; the claims under check only evaluate it on hex digits, where
the two agree, and on non-hex input both fail with `ValueError`.) -/
def parseHex2 (s : List Char) : Option Nat :=
  match s with
  | [c1, c2] =>
    match hexDigitVal c1, hexDigitVal c2 with
    | some a, some b => some (16 * a + b)
    | _, _ => none
  | _ => none

/-- `colorstring.strip()`: drop leading and trailing whitespace
characters.  (Python strips a couple more control characters than
`Char.isWhitespace` recognises; the claims under check do not depend on
the exact whitespace set.) -/
def stripChars (l : List Char) : List Char :=
  ((l.dropWhile Char.isWhitespace).reverse.dropWhile Char.isWhitespace).reverse

/-- `hash_color(colorstring)` (producer.py lines 1069-1078): strip the
input, drop one leading `#`, demand six characters, and parse the three
two-character groups in base 16. -/
def hash_color (colorstring : String) : Except PyError (Nat × Nat × Nat) :=
  let stripped := stripChars colorstring.data
  match stripped with
  | [] => .error .indexError
  | c0 :: rest =>
    let cs := if c0 = '#' then rest else c0 :: rest
    if cs.length ≠ 6 then .error .valueError
    else
      match parseHex2 (cs.take 2), parseHex2 ((cs.drop 2).take 2),
            parseHex2 (cs.drop 4) with
      | some r, some g, some b => .ok (r, g, b)
      | _, _, _ => .error .valueError

/-! ## Mask boundary tracing (`get_polygons_positions`, lines 256-307)

A pixel mask is a list of rows of booleans, `true` meaning masked
(invalid), as in a numpy masked array; `np.nonzero(1 - mask[line, :])`
yields the ascending indices of the valid (unmasked) pixels of a row.
The source folds the masks of several channels with `logical_or` first;
the tracer itself only ever sees the combined mask, which is what the
embedding takes as input. -/

/-- Ascending indices of the valid (`false`) entries of a row:
`np.nonzero(1 - mask[line, :])[0]`. -/
def validCols (row : List Bool) : List Nat :=
  (List.range row.length).filter fun i => !row.getD i true

/-- Row `line` of the mask (out-of-range reads, which the source never
makes, give an empty row). -/
def rowAt (mask : List (List Bool)) (line : Nat) : List Bool := mask.getD line []

def colsAt (mask : List (List Bool)) (line : Nat) : List Nat :=
  validCols (rowAt mask line)

/-- `np.any(1 - mask[line, :])`: the row has a valid pixel. -/
def validRow (mask : List (List Bool)) (line : Nat) : Bool :=
  !(colsAt mask line).isEmpty

/-- Helper for `everyNth`: keep an element when the countdown hits zero,
then restart it at `f - 1`. -/
def everyNthAux (f : Nat) : List α → Nat → List α
  | [], _ => []
  | a :: rest, k =>
    if k = 0 then a :: everyNthAux f rest (f - 1) else everyNthAux f rest (k - 1)

/-- The extended slice `l[0::f]` (every `f`-th element).  The source only
uses positive frequencies. -/
def everyNth (f : Nat) (l : List α) : List α := everyNthAux f l 0

/-- The loop state of `get_polygons_positions`: the closed polygons, the
two half-boundaries of the polygon under construction, the valid-row
counter, and the last valid line seen. -/
structure PolyState where
  polygons : List (List (Nat × Nat))
  left : List (Nat × Nat)
  right : List (Nat × Nat)
  count : Nat
  last_valid : Option Nat
deriving Repr, DecidableEq

def initPoly : PolyState := ⟨[], [], [], 0, none⟩

/-- One iteration of `for line in range(mask.shape[0])` (lines 270-296).
The Python test `last_valid_line != line - 1` over the integers is
written `lvl + 1 ≠ line` over `Nat` (equivalent, since both sides of the
original are integers). -/
def polyStep (mask : List (List Bool)) (freq : Nat) (st : PolyState)
    (line : Nat) : PolyState :=
  let cols := colsAt mask line
  if cols.isEmpty then st
  else
    let st1 : PolyState :=
      match st.last_valid with
      | some lvl =>
        if lvl + 1 ≠ line then
          -- close the polygon and start a new one (lines 274-290)
          let last_cols := colsAt mask lvl
          let r0 := if st.count % freq ≠ 0 then
              st.right ++ [(lvl, last_cols.getLastD 0)] else st.right
          let l0 := if st.count % freq ≠ 0 then
              st.left ++ [(lvl, last_cols.headD 0)] else st.left
          let l1 := l0 ++ (everyNth freq ((last_cols.drop 1).dropLast)).map
              fun c => (lvl, c)
          { polygons := st.polygons ++ [l1.reverse ++ r0]
            left := [(line, cols.headD 0)]
            right := (everyNth freq (cols.drop 1)).map fun c => (line, c)
            count := 0
            last_valid := st.last_valid }
        else if st.count % freq = 0 then
          { st with left := st.left ++ [(line, cols.headD 0)],
                    right := st.right ++ [(line, cols.getLastD 0)] }
        else st
      | none =>
        if st.count % freq = 0 then
          { st with left := st.left ++ [(line, cols.headD 0)],
                    right := st.right ++ [(line, cols.getLastD 0)] }
        else st
    { st1 with count := st1.count + 1, last_valid := some line }

/-- `get_polygons_positions(datas, frequency)` (lines 256-307), taking the
already-combined mask.  After the row loop, the trailing fix-up at lines
298-300 runs when `(count - 1) % frequency != 0` (Python modulo on
integers, hence `Int` emod here), and the remaining half-boundaries are
closed into a final polygon if non-empty. -/
def get_polygons_positions (mask : List (List Bool)) (freq : Nat) :
    List (List (Nat × Nat)) :=
  let st := (List.range mask.length).foldl (polyStep mask freq) initPoly
  let st1 :=
    match st.last_valid with
    | some lvl =>
      if ((st.count : Int) - 1) % (freq : Int) ≠ 0 then
        let last_cols := colsAt mask lvl
        { st with left := st.left ++ [(lvl, last_cols.headD 0)],
                  right := st.right ++ [(lvl, last_cols.getLastD 0)] }
      else st
    | none => st
  let result := st1.left.reverse ++ st1.right
  if result.isEmpty then st1.polygons else st1.polygons ++ [result]

/-- Append a valid line to a list of runs: extend the last run if the line
is adjacent to its end, else start a new run. -/
def snocRun (gs : List (List Nat)) (x : Nat) : List (List Nat) :=
  match gs.getLast? with
  | none => [[x]]
  | some g => if g.getLastD 0 + 1 = x then gs.dropLast ++ [g ++ [x]]
              else gs ++ [[x]]

/-- The maximal contiguous runs of valid rows among the first `n` rows of
the mask, in top-to-bottom order. -/
def runsUpTo (mask : List (List Bool)) (n : Nat) : List (List Nat) :=
  (List.range n).foldl (fun gs r => if validRow mask r then snocRun gs r else gs) []

/-- The maximal contiguous runs of valid rows of the mask. -/
def runs (mask : List (List Bool)) : List (List Nat) :=
  runsUpTo mask mask.length

/-- Column index of the leftmost valid pixel of a row. -/
def leftmostCol (mask : List (List Bool)) (r : Nat) : Nat :=
  (colsAt mask r).headD 0

/-- Column index of the rightmost valid pixel of a row. -/
def rightmostCol (mask : List (List Bool)) (r : Nat) : Nat :=
  (colsAt mask r).getLastD 0

/-! ## The writer thread (`DataWriter`, lines 1081-1222)

The claims about the writer concern the permission bits put on the
temporary files and the per-batch completion tracking, so the batch body
is modelled at that granularity: one `chmod`/save/link step per copy of a
batch, with the save outcomes supplied as data. -/

/-- `default_mode = int('666', 8) - umask` (producer.py line 1104).
Note the arithmetic subtraction: this is `0o666 - umask`, not
`0o666 & ~umask`. -/
def default_mode (umask : Int) : Int := 438 - umask

/-- Bit `i` of `n`, written arithmetically so that it evaluates in the
kernel. -/
def nbit (n i : Nat) : Nat := n / 2 ^ i % 2

/-- The formula the specification states for the file mode:
`0o666 & ~umask`, written out per bit over the nine permission bits
(bits of `0o666` above bit 8 are zero, so for `0 ≤ umask` no other bit
can survive the conjunction). -/
def mode_and_not (umask : Nat) : Nat :=
  (List.range 9).foldl
    (fun acc i => if nbit 438 i = 1 ∧ nbit umask i = 0 then acc + 2 ^ i else acc) 0

/-- One entry of a batch's `copies` list, abstracted to the outcomes of
the two `obj.save` attempts made for it when it is the first copy to be
rendered (`save1Ok`: the first `obj.save` succeeds; `save2Ok`: the retry
succeeds). -/
structure CopySpec where
  save1Ok : Bool
  save2Ok : Bool
deriving Repr, DecidableEq

/-- Observable effects of the writer's inner loop. -/
inductive WEvent
  | chmod (mode : Int)
  | save
  | rename
  | linkOrCopy
deriving Repr, DecidableEq

/-- The `for copy in copies` loop of `DataWriter.run` (lines 1146-1197):
each copy gets a fresh temp file `chmod`-ed to `default_mode`; while no
rendering has succeeded (`saved` falsy) the object is saved (retried once
on `IOError`, abandoned for this copy on a second failure); once a
rendering exists further copies are hard-linked or copied from it. -/
def writerCopies (umask : Int) : List CopySpec → Bool → List WEvent
  | [], _ => []
  | c :: rest, saved =>
    WEvent.chmod (default_mode umask) ::
    (if saved then
      WEvent.linkOrCopy :: writerCopies umask rest true
     else if c.save1Ok then
      WEvent.save :: WEvent.rename :: writerCopies umask rest true
     else if c.save2Ok then
      WEvent.save :: WEvent.save :: WEvent.rename :: writerCopies umask rest true
     else
      WEvent.save :: WEvent.save :: writerCopies umask rest false)

/-- One dequeued batch in `DataWriter.run` (lines 1106-1211): the body is
wrapped in `try ... except Exception ... finally: self.prod_queue.task_done()`,
so the returned completion flag is `true` on every path.  `bodyRaises`
models an exception escaping the batch body (caught by the
`except Exception` handler, which aborts the remaining copies). -/
def writerBatch (umask : Int) (copies : List CopySpec) (bodyRaises : Bool) :
    List WEvent × Bool :=
  (if bodyRaises then [] else writerCopies umask copies false, true)

/-! ## The processing entry point (`DataProcessor.run`, lines 496-690)

For the barrier claim the relevant structure of `run` is the order of its
observable events: channel loads, hand-offs to the writer
(`self.writer.write`), the queue-drain barrier (`prod_queue.join()`), the
release of the global scene (`release_memory`), and the final
`raise IOError`.  The decisions feeding that control flow (message
parsing, coverage, reprojection results) are abstracted to booleans and
counts supplied as input. -/

/-- Observable events of one `DataProcessor.run` invocation. -/
inductive PEvent
  | loadAttempt
  | enqueue
  | queueJoin
  | releaseMemory
  | raiseIOError
deriving Repr, DecidableEq

/-- One `<group>` of the product configuration, abstracted to the data
deciding the control flow of the group loop (lines 566-672): `skip` is
"the collection does not cover this group, or no area yields a product";
`loadOk` is the outcome of `self.global_data.load`; `areaEnqueues` gives,
for each area that reaches `draw_images`, the number of `writer.write`
calls it performs. -/
structure GroupIn where
  skip : Bool
  loadOk : Bool
  areaEnqueues : List Nat
deriving Repr

/-- Input of one `DataProcessor.run` invocation, abstracted likewise:
`msgOk` is "the message type is recognised and, for collections, the
collection covers a configured area" (lines 502-520); `uriOk` is the
outcome of `check_uri` (line 527); `dumps` gives the load/save outcome of
each top-level `<dump>` item (lines 556-564). -/
structure DPInput where
  msgOk : Bool
  uriOk : Bool
  dumps : List Bool
  groups : List GroupIn
deriving Repr

/-- The group loop of `DataProcessor.run` (lines 566-672).  Returns the
events and the resulting `self._data_ok` flag: a failed channel load logs
`Incomplete or corrupted input data`, clears `_data_ok` and breaks out of
the loop. -/
def dpGroupsLoop : List GroupIn → List PEvent × Bool
  | [] => ([], true)
  | g :: rest =>
    if g.skip then dpGroupsLoop rest
    else if g.loadOk then
      let evs := PEvent.loadAttempt ::
        (g.areaEnqueues.flatMap fun n => List.replicate n PEvent.enqueue)
      let (evs2, ok) := dpGroupsLoop rest
      (evs ++ evs2, ok)
    else ([PEvent.loadAttempt], false)

/-- `DataProcessor.run` (lines 496-690) as an event trace.  After the dump
and group phases the function always runs `self.writer.prod_queue.join()`
and then `self.release_memory()`, and finally raises `IOError` exactly
when `_data_ok` was cleared. -/
def dpRun (inp : DPInput) : List PEvent :=
  if !inp.msgOk then []
  else if !inp.uriOk then []
  else
    let dumpEvs := inp.dumps.flatMap fun ok =>
      if ok then [PEvent.loadAttempt, PEvent.enqueue] else [PEvent.loadAttempt]
    let (grpEvs, dataOk) := dpGroupsLoop inp.groups
    dumpEvs ++ grpEvs ++ [PEvent.queueJoin, PEvent.releaseMemory] ++
      (if dataOk then [] else [PEvent.raiseIOError])

/-! ## The orchestrator (`Trollduction.run_single`, lines 1338-1408)

The dedup record `self._previous_pass` is a Python dict, mutated in place
by the optimistic update and saved/restored by reference
(`prev_pass = self._previous_pass` ... `self._previous_pass = prev_pass`).
To keep those reference semantics observable the embedding carries an
explicit heap of records and stores addresses, exactly as the interpreter
does: the statement at line 1357 copies an address, the item assignments
at lines 1373-1381 mutate the heap cell, and the rollback at line 1401
copies the address back. -/

/-- The `(platform_name, start_time)` dedup record (the dict created at
lines 1246-1247; both fields start as `None`). -/
structure PassRecord where
  platform_name : Option String
  start_time : Option Int
deriving Repr, DecidableEq

/-- Heap of dict objects; an address is an index. -/
abbrev RecHeap := List PassRecord

def heapGet (h : RecHeap) (a : Nat) : PassRecord := h.getD a ⟨none, none⟩

def heapSet (h : RecHeap) (a : Nat) (r : PassRecord) : RecHeap := h.set a r

/-- Orchestrator state: the heap and the address held by
`self._previous_pass`. -/
structure OrchState where
  heap : RecHeap
  previous_pass : Nat
deriving Repr, DecidableEq

/-- State at the end of `Trollduction.__init__` (lines 1246-1247): one
record object with both fields `None`. -/
def initOrchState : OrchState := { heap := [⟨none, none⟩], previous_pass := 0 }

/-- An inbound message, restricted to the metadata `run_single` reads. A
`none` field models an absent key (whose lookup raises `KeyError`). -/
structure Msg where
  mtype : String
  platform_name : Option String
  start_time : Option Int
  sensor : List String
deriving Repr

/-- The orchestrator configuration entries `run_single` reads
(`instruments` already split on commas). -/
structure TdConfig where
  instruments : List String
  process_only_once : String
deriving Repr

/-- Outcome of one `self.data_processor.run(...)` invocation. -/
inductive Outcome
  | ok
  | ioError
  | otherErr
deriving Repr, DecidableEq

/-- Observable events of the orchestrator loop. -/
inductive Event
  | configReload
  | processAttempt
  | sleep2
deriving Repr, DecidableEq

/-- The message filter at lines 1358-1360: recognised type and a sensor
in the configured instrument set. -/
def filterPass (cfg : TdConfig) (msg : Msg) : Bool :=
  (msg.mtype ∈ ["file", "collection", "dataset"] : Bool) &&
    msg.sensor.any fun sn => cfg.instruments.contains sn

/-- `process_only_once` enabled (line 1362):
`self.td_config.get('process_only_once', "false").lower() in ["true", "yes", "1"]`
(the lowering is done on the character list so that it evaluates in the
kernel). -/
def pooEnabled (cfg : TdConfig) : Bool :=
  cfg.process_only_once.data.map Char.toLower ∈
    [String.data "true", String.data "yes", String.data "1"]

/-- The dedup check and optimistic update (lines 1361-1385), including the
`except KeyError` handler ("can't check if file is already processed, so
let's do it anyway") triggered by an absent message key.  Returns
(skip this message?, heap after the in-place item assignments). -/
def dedupCheck (cfg : TdConfig) (h : RecHeap) (pp : Nat) (msg : Msg) :
    Bool × RecHeap :=
  let rec0 := heapGet h pp
  -- the else-branch at lines 1372-1376: two in-place item assignments,
  -- each raising KeyError if the message key is absent
  let update : Bool × RecHeap :=
    match msg.platform_name with
    | none => (false, h)
    | some p =>
      let h1 := heapSet h pp { heapGet h pp with platform_name := some p }
      match msg.start_time with
      | none => (false, h1)
      | some st => (false, heapSet h1 pp { heapGet h1 pp with start_time := some st })
  if pooEnabled cfg then
    match msg.platform_name with
    | none => (false, h)
    | some p =>
      if rec0.platform_name = some p then
        match msg.start_time with
        | none => (false, h)
        | some st =>
          if rec0.start_time = some st then (true, h) else update
      else update
  else update

/-- The body of `while True` at lines 1391-1406 with `retried == True`:
an `IOError` now logs and breaks with the rollback assignment executed.
Returns (events, rollback executed?, exception propagated?). -/
def retryOnce (outcomes : Nat → Outcome) (k : Nat) :
    List Event × Bool × Bool :=
  match outcomes k with
  | .ok => ([Event.processAttempt], false, false)
  | .otherErr => ([Event.processAttempt], false, true)
  | .ioError => ([Event.processAttempt], true, false)

/-- The `while True` retry loop (lines 1390-1406), first iteration
(`retried == False`): an `IOError` sets `retried`, sleeps 2 seconds and
loops, which is exactly one `retryOnce` iteration. -/
def retryLoop (outcomes : Nat → Outcome) : List Event × Bool × Bool :=
  match outcomes 0 with
  | .ok => ([Event.processAttempt], false, false)
  | .otherErr => ([Event.processAttempt], false, true)
  | .ioError =>
    let r := retryOnce outcomes 1
    (Event.processAttempt :: Event.sleep2 :: r.1, r.2.1, r.2.2)

/-- One iteration of `run_single`'s message loop for a received message
(lines 1351-1406).  `outcomes k` is the result of the `k`-th
`data_processor.run` invocation for this message.  Returns the new state,
the emitted events, and whether an uncaught exception propagated (which
terminates the surrounding `while self._loop`). -/
def processMessage (cfg : TdConfig) (s : OrchState) (msg : Msg)
    (outcomes : Nat → Outcome) : OrchState × List Event × Bool :=
  let prev_pass := s.previous_pass      -- line 1357: an address copy
  if filterPass cfg msg then
    let dc := dedupCheck cfg s.heap s.previous_pass msg
    if dc.1 then (s, [], false)         -- line 1371: continue, nothing done
    else
      -- line 1387: self.update_product_config(...), then the retry loop
      let s1 : OrchState := { heap := dc.2, previous_pass := s.previous_pass }
      let rl := retryLoop outcomes
      -- line 1401: self._previous_pass = prev_pass (an address copy back)
      let s2 := if rl.2.1 then { s1 with previous_pass := prev_pass } else s1
      (s2, Event.configReload :: rl.1, rl.2.2)
  else (s, [], false)

def runSingle (cfg : TdConfig) : OrchState → List (Msg × (Nat → Outcome)) →
    OrchState × List Event × Option Nat
  | s, [] => (s, [], none)
  | s, (msg, oc) :: rest =>
    let pm := processMessage cfg s msg oc
    if pm.2.2 then (pm.1, pm.2.1, some 0)
    else
      let rs := runSingle cfg pm.1 rest
      (rs.1, pm.2.1 ++ rs.2.1, rs.2.2.map (· + 1))

/-! ## Claim C7: coverage checking is opt-in -/

/-- C7: for every area item, `covers` returns `true` ("covered") whenever
the overpass model is `none` or the configured minimum coverage
percentage is zero (absent defaults to zero), regardless of the actual
overlap. -/
theorem c7_covers_optin (overpass : Option Overpass) (item : AreaItem)
    (h : overpass = none ∨ item.min_coverage.getD 0 = 0) :
    covers overpass item = true := by
  rcases h with h | h
  · subst h
    simp [covers]
  · simp [covers, h]

/-- Witness for C7 at a concrete area item and overlap. -/
theorem c7_covers_optin_witness :
    covers none { id := "euro4", name := "euron1", min_coverage := some 50 } = true :=
  c7_covers_optin none _ (Or.inl rfl)

/-! ## Claim C8: coverage-threshold monotonicity -/

/-- `covers` excludes an area exactly when the threshold is nonzero and
the overlap fraction is at most `threshold / 100` (for an overpass whose
coverage query succeeds). -/
lemma covers_excluded_iff (op : Overpass) (item : AreaItem) (p cov : ℚ)
    (hcov : op.area_coverage (get_area_def item.id) = some cov) :
    covers (some op) { item with min_coverage := some p } = false ↔
      (¬ p = 0 ∧ cov ≤ p / 100) := by
  simp only [covers, Option.getD_some, Option.isNone_some, Bool.or_false, hcov]
  by_cases hp : p = 0
  · simp [hp]
  · by_cases hc : cov ≤ p / 100
    · simp [hp, hc]
    · simp [hp, hc]

/-- Same characterisation for `generic_covers`. -/
lemma generic_covers_excluded_iff (coverage : AreaDef → ℚ) (item : AreaItem)
    (p : ℚ) :
    generic_covers coverage { item with min_coverage := some p } = false ↔
      (¬ p = 0 ∧ coverage (get_area_def item.id) ≤ p / 100) := by
  simp only [generic_covers, Option.getD_some]
  by_cases hp : p = 0
  · simp [hp]
  · by_cases hc : coverage (get_area_def item.id) ≤ p / 100
    · simp [hp, hc]
    · simp [hp, hc]

/-- C8: for a fixed overpass (resp. fixed loaded-scene coverage estimate)
and fixed target region, an area excluded at threshold `p` is excluded at
every strictly greater threshold `q`.  The overlap fraction is
nonnegative (it is an area ratio computed by the external geometry). -/
theorem c8_coverage_monotone (op : Overpass) (item : AreaItem) (p q cov : ℚ)
    (hcov : op.area_coverage (get_area_def item.id) = some cov)
    (h0 : 0 ≤ cov) (hpq : p < q) :
    (covers (some op) { item with min_coverage := some p } = false →
      covers (some op) { item with min_coverage := some q } = false) ∧
    (∀ coverage : AreaDef → ℚ, 0 ≤ coverage (get_area_def item.id) →
      generic_covers coverage { item with min_coverage := some p } = false →
      generic_covers coverage { item with min_coverage := some q } = false) := by
  constructor
  · intro hp
    rw [covers_excluded_iff op item p cov hcov] at hp
    obtain ⟨hp0, hle⟩ := hp
    rw [covers_excluded_iff op item q cov hcov]
    have hpnn : 0 ≤ p := by linarith
    have hppos : 0 < p := lt_of_le_of_ne hpnn (Ne.symm hp0)
    refine ⟨fun h => by rw [h] at hpq; linarith, le_trans hle (by linarith)⟩
  · intro coverage hc0 hp
    rw [generic_covers_excluded_iff coverage item p] at hp
    obtain ⟨hp0, hle⟩ := hp
    rw [generic_covers_excluded_iff coverage item q]
    have hpnn : 0 ≤ p := by linarith
    have hppos : 0 < p := lt_of_le_of_ne hpnn (Ne.symm hp0)
    refine ⟨fun h => by rw [h] at hpq; linarith, le_trans hle (by linarith)⟩

/-- Witness for C8 at a concrete overpass yielding 40% coverage, with the
threshold raised from 50% to 90%. -/
theorem c8_coverage_monotone_witness :
    covers (some ⟨fun _ => some (2/5)⟩)
      { id := "euro4", name := "euron1", min_coverage := some 90 } = false := by
  refine (c8_coverage_monotone ⟨fun _ => some (2/5)⟩
      { id := "euro4", name := "euron1", min_coverage := some 42 } 50 90 (2/5)
      rfl (by norm_num) (by norm_num)).1 ?_
  rw [covers_excluded_iff _ _ _ _ rfl]
  norm_num

/-! ## Claim C10: `hash_color` -/

/-- C10: for an input that is non-empty after stripping, let the
remainder be the stripped characters with a single leading `#` removed
when present.  If the remainder does not have six characters,
`hash_color` raises `ValueError`; if it consists of six hexadecimal
digits, `hash_color` returns the three integers parsed in base 16 from
its consecutive two-character slices. -/
theorem c10_hash_color (s : String) (hne : stripChars s.data ≠ []) :
    (let stripped := stripChars s.data
     let r := if stripped.headD ' ' = '#' then stripped.tail else stripped
     (r.length ≠ 6 → hash_color s = .error PyError.valueError) ∧
     (∀ c1 c2 c3 c4 c5 c6 v1 v2 v3 v4 v5 v6,
        r = [c1, c2, c3, c4, c5, c6] →
        hexDigitVal c1 = some v1 → hexDigitVal c2 = some v2 →
        hexDigitVal c3 = some v3 → hexDigitVal c4 = some v4 →
        hexDigitVal c5 = some v5 → hexDigitVal c6 = some v6 →
        hash_color s = .ok (16 * v1 + v2, 16 * v3 + v4, 16 * v5 + v6))) := by
  rcases hds : stripChars s.data with _ | ⟨c0, rest⟩
  · exact absurd hds hne
  · simp only [hds, List.headD_cons, List.tail_cons]
    unfold hash_color
    simp only [hds]
    by_cases h0 : c0 = '#'
    · simp only [h0, if_pos rfl]
      constructor
      · intro hlen
        rw [if_pos hlen]
      · intro c1 c2 c3 c4 c5 c6 v1 v2 v3 v4 v5 v6 hr h1 h2 h3 h4 h5 h6
        subst hr
        simp [parseHex2, h1, h2, h3, h4, h5, h6]
    · rw [if_neg h0]
      constructor
      · intro hlen
        rw [if_pos hlen]
      · intro c1 c2 c3 c4 c5 c6 v1 v2 v3 v4 v5 v6 hr h1 h2 h3 h4 h5 h6
        rw [hr]
        simp [parseHex2, h1, h2, h3, h4, h5, h6]

/-- Witness for C10: both branches at concrete inputs, through the
theorem itself. -/
theorem c10_hash_color_witness :
    hash_color " #00ff2a " = .ok (0, 255, 42) ∧
    hash_color "#1234" = .error PyError.valueError := by
  constructor
  · exact (c10_hash_color " #00ff2a " (by decide)).2 '0' '0' 'f' 'f' '2' 'a'
      0 0 15 15 2 10 (by decide) (by decide) (by decide) (by decide)
      (by decide) (by decide) (by decide)
  · exact (c10_hash_color "#1234" (by decide)).1 (by decide)

/-! ## Claim C5: temporary-file permission bits -/

/-- Every `chmod` event of the writer's copy loop carries
`default_mode umask`. -/
lemma writerCopies_chmod (u : Int) (copies : List CopySpec) :
    ∀ (saved : Bool) (m : Int),
      WEvent.chmod m ∈ writerCopies u copies saved → m = default_mode u := by
  induction copies with
  | nil =>
    intro saved m hm
    simp [writerCopies] at hm
  | cons c rest ih =>
    intro saved m hm
    rw [writerCopies] at hm
    rcases List.mem_cons.mp hm with hm | hm
    · injection hm
    · split at hm
      · rcases List.mem_cons.mp hm with hm | hm
        · exact absurd hm (by simp)
        · exact ih true m hm
      · split at hm
        · simp only [List.mem_cons] at hm
          rcases hm with hm | hm | hm
          · exact absurd hm (by simp)
          · exact absurd hm (by simp)
          · exact ih true m hm
        · split at hm
          · simp only [List.mem_cons] at hm
            rcases hm with hm | hm | hm | hm
            · exact absurd hm (by simp)
            · exact absurd hm (by simp)
            · exact absurd hm (by simp)
            · exact ih true m hm
          · simp only [List.mem_cons] at hm
            rcases hm with hm | hm | hm
            · exact absurd hm (by simp)
            · exact absurd hm (by simp)
            · exact ih false m hm

set_option maxRecDepth 10000 in
/-- For the nine-bit umasks whose set bits lie within `0o666`'s bits, the
subtraction `0o666 - umask` agrees with `0o666 & ~umask`. -/
lemma default_mode_eq_and_not :
    ∀ v : Fin 512, (∀ i : Fin 9, nbit v.val i.val ≤ nbit 438 i.val) →
      default_mode v.val = (mode_and_not v.val : Int) := by
  decide

/-- Counterexample to C5 as stated: at umask `0o077` the writer chmods
its temporary file to `0o666 - 0o077 = 0o567 = 375`, whereas
`0o666 & ~0o077 = 0o600 = 384`. -/
theorem c5_counterexample :
    WEvent.chmod 375 ∈ (writerBatch 63 [⟨true, true⟩] false).1 ∧
    (mode_and_not 63 : Int) = 384 ∧ (375 : Int) ≠ 384 := by
  decide

/-- C5 (amended): the permission bits the writer sets on each temporary
output file equal `0o666 - umask` (integer subtraction, line 1104); for
every umask whose set bits lie within `0o666`'s bits this coincides with
the specified `0o666 & ~umask`. -/
theorem c5_amended (umask : Nat) (h9 : umask < 512)
    (hsub : ∀ i : Fin 9, nbit umask i.val ≤ nbit 438 i.val)
    (copies : List CopySpec) (saved : Bool) (m : Int)
    (hm : WEvent.chmod m ∈ writerCopies (umask : Int) copies saved) :
    m = default_mode umask ∧ default_mode umask = (mode_and_not umask : Int) := by
  refine ⟨writerCopies_chmod _ copies saved m hm, ?_⟩
  exact default_mode_eq_and_not ⟨umask, h9⟩ hsub

/-- Witness for C5 (amended) at umask `0o022`. -/
theorem c5_amended_witness :
    (420 : Int) = default_mode 18 ∧ default_mode 18 = (mode_and_not 18 : Int) :=
  c5_amended 18 (by decide) (by decide) [⟨true, true⟩] false 420 (by decide)

/-! ## Claim C3: the queue-drain barrier precedes the scene release -/

/-- The group loop only emits loads and enqueues. -/
lemma dpGroupsLoop_events (gs : List GroupIn) :
    ∀ e ∈ (dpGroupsLoop gs).1, e = PEvent.loadAttempt ∨ e = PEvent.enqueue := by
  induction gs with
  | nil => intro e he; simp [dpGroupsLoop] at he
  | cons g rest ih =>
    intro e he
    rw [dpGroupsLoop] at he
    split at he
    · exact ih e he
    · split at he
      · simp only [List.mem_append, List.mem_cons] at he
        rcases he with (he | he) | he
        · exact Or.inl he
        · refine Or.inr ?_
          rcases List.mem_flatMap.mp he with ⟨n, _, hn⟩
          exact List.eq_of_mem_replicate hn
        · exact ih e he
      · simp only [List.mem_singleton] at he
        exact Or.inl he

/-- Shape of a `DataProcessor.run` trace: either an early return (empty
trace), or loads-and-enqueues, then the barrier `prod_queue.join()`,
then `release_memory`, then at most the final `raise IOError`. -/
lemma dpRun_shape (inp : DPInput) :
    dpRun inp = [] ∨
    ∃ pre tail, dpRun inp = pre ++ PEvent.queueJoin :: PEvent.releaseMemory :: tail ∧
      (∀ e ∈ pre, e = PEvent.loadAttempt ∨ e = PEvent.enqueue) ∧
      (tail = [] ∨ tail = [PEvent.raiseIOError]) := by
  rw [dpRun]
  split
  · exact Or.inl rfl
  · split
    · exact Or.inl rfl
    · right
      refine ⟨(inp.dumps.flatMap fun ok =>
          if ok then [PEvent.loadAttempt, PEvent.enqueue] else [PEvent.loadAttempt]) ++
          (dpGroupsLoop inp.groups).1,
          if (dpGroupsLoop inp.groups).2 then [] else [PEvent.raiseIOError], ?_, ?_, ?_⟩
      · simp
      · intro e he
        rcases List.mem_append.mp he with he | he
        · rcases List.mem_flatMap.mp he with ⟨ok, _, hok⟩
          split at hok
          · rcases List.mem_cons.mp hok with h | h
            · exact Or.inl h
            · simp only [List.mem_singleton] at h
              exact Or.inr h
          · simp only [List.mem_singleton] at hok
            exact Or.inl hok
        · exact dpGroupsLoop_events inp.groups e he
      · split
        · exact Or.inl rfl
        · exact Or.inr rfl

/-- Membership from an index lookup. -/
lemma mem_of_lookup {α : Type} {l : List α} {i : Nat} {a : α}
    (h : l[i]? = some a) : a ∈ l := by
  rcases List.getElem?_eq_some.mp h with ⟨hlt, rfl⟩
  exact List.getElem_mem hlt

/-- C3: in every `DataProcessor.run` trace, any `release_memory` event is
preceded by the `prod_queue.join()` barrier, which in turn follows every
hand-off to the writer — on the success path and on the incomplete-data
path alike; and the writer marks every dequeued batch complete
(`task_done` in the `finally` clause) whether or not its body raised. -/
theorem c3_barrier :
    (∀ (inp : DPInput) (i j : Nat),
        (dpRun inp)[i]? = some PEvent.releaseMemory →
        (dpRun inp)[j]? = some PEvent.enqueue →
        ∃ k, j < k ∧ k < i ∧ (dpRun inp)[k]? = some PEvent.queueJoin) ∧
    (∀ (umask : Int) (copies : List CopySpec) (bodyRaises : Bool),
        (writerBatch umask copies bodyRaises).2 = true) := by
  constructor
  · intro inp i j hi hj
    rcases dpRun_shape inp with h | ⟨pre, tail, heq, hpre, htail⟩
    · rw [h] at hi
      simp at hi
    · rw [heq] at hi hj ⊢
      have hnotpre : ∀ x ∈ pre, x = PEvent.loadAttempt ∨ x = PEvent.enqueue := hpre
      -- the release index is exactly pre.length + 1
      have hi' : i = pre.length + 1 := by
        by_cases hip : i < pre.length
        · rw [List.getElem?_append_left hip] at hi
          rcases hnotpre _ (mem_of_lookup hi) with h | h <;> simp at h
        · push_neg at hip
          rw [List.getElem?_append_right hip] at hi
          rcases hd : i - pre.length with _ | _ | d
          · rw [hd] at hi
            simp at hi
          · omega
          · rw [hd] at hi
            simp only [List.getElem?_cons_succ] at hi
            have : PEvent.releaseMemory ∈ tail := mem_of_lookup hi
            rcases htail with ht | ht <;> rw [ht] at this <;> simp at this
      -- the enqueue index is inside the prefix
      have hj' : j < pre.length := by
        by_cases hjp : j < pre.length
        · exact hjp
        · exfalso
          push_neg at hjp
          rw [List.getElem?_append_right hjp] at hj
          rcases hd : j - pre.length with _ | _ | d
          · rw [hd] at hj
            simp at hj
          · rw [hd] at hj
            simp at hj
          · rw [hd] at hj
            simp only [List.getElem?_cons_succ] at hj
            have : PEvent.enqueue ∈ tail := mem_of_lookup hj
            rcases htail with ht | ht <;> rw [ht] at this <;> simp at this
      refine ⟨pre.length, hj', by omega, ?_⟩
      rw [List.getElem?_append_right (le_refl pre.length)]
      simp
  · intro umask copies bodyRaises
    rfl

/-- Witness for C3: a run with one dump enqueue; the trace is
`[load, enqueue, join, release]` and the barrier index 2 lies between the
enqueue at 1 and the release at 3. -/
theorem c3_barrier_witness :
    ∃ k, 1 < k ∧ k < 3 ∧
      (dpRun { msgOk := true, uriOk := true, dumps := [true], groups := [] })[k]? =
        some PEvent.queueJoin :=
  c3_barrier.1 { msgOk := true, uriOk := true, dumps := [true], groups := [] } 3 1
    (by decide) (by decide)

/-! ## Claim C1: rollback of the dedup record -/

/-- C1 (evaluation at the failing input): with at-most-once mode on, a
record holding `("NOAA-19", 100)` and a message for `("Metop-B", 200)`
whose processing raises the incomplete-data error on both attempts,
`run_single` leaves the record at `("Metop-B", 200)`.  The saved
`prev_pass` is an alias of the same dict, so the in-place optimistic
update also changes it, and the rollback assignment at line 1401 restores
nothing — contradicting the adjacent log message ("History of processed
files not updated"). -/
theorem c1_rollback_noop :
    (runSingle { instruments := ["avhrr"], process_only_once := "True" }
        { heap := [⟨some "NOAA-19", some 100⟩], previous_pass := 0 }
        [({ mtype := "file", platform_name := some "Metop-B", start_time := some 200,
            sensor := ["avhrr"] }, fun _ => Outcome.ioError)]).1 =
      { heap := [⟨some "Metop-B", some 200⟩], previous_pass := 0 } := by
  decide

/-! ## Claim C2: error classes and loop survival -/

/-- With no `otherErr` outcome anywhere, the exception flag of the retry
loop stays clear. -/
lemma retryLoop_no_other (oc : Nat → Outcome)
    (h : ∀ k, oc k ≠ Outcome.otherErr) : (retryLoop oc).2.2 = false := by
  rw [retryLoop]
  cases h0 : oc 0 with
  | ok => rfl
  | otherErr => exact absurd h0 (h 0)
  | ioError =>
    simp only
    rw [retryOnce]
    cases h1 : oc 1 with
    | ok => rfl
    | otherErr => exact absurd h1 (h 1)
    | ioError => rfl

/-- Without an `otherErr` outcome, `processMessage` propagates no
exception. -/
lemma processMessage_no_other (cfg : TdConfig) (s : OrchState) (msg : Msg)
    (oc : Nat → Outcome) (h : ∀ k, oc k ≠ Outcome.otherErr) :
    (processMessage cfg s msg oc).2.2 = false := by
  rw [processMessage]
  by_cases hf : filterPass cfg msg
  · simp only [hf, if_true]
    by_cases hd : (dedupCheck cfg s.heap s.previous_pass msg).1
    · simp [hd]
    · simp only [hd, if_false]
      exact retryLoop_no_other oc h
  · simp [hf]

/-- `processMessage` propagates an exception exactly when the message is
processed at all and the decisive attempt raises a non-`IOError` error. -/
lemma processMessage_raised_iff (cfg : TdConfig) (s : OrchState) (msg : Msg)
    (oc : Nat → Outcome) :
    (processMessage cfg s msg oc).2.2 = true ↔
      (filterPass cfg msg = true ∧
        (dedupCheck cfg s.heap s.previous_pass msg).1 = false ∧
        (oc 0 = Outcome.otherErr ∨
          (oc 0 = Outcome.ioError ∧ oc 1 = Outcome.otherErr))) := by
  rw [processMessage]
  by_cases hf : filterPass cfg msg
  · simp only [hf, if_true]
    by_cases hd : (dedupCheck cfg s.heap s.previous_pass msg).1
    · simp [hd]
    · simp only [hd, if_false, eq_self_iff_true, true_and, Bool.false_eq_true,
        false_and, and_false, or_false]
      rw [retryLoop]
      cases h0 : oc 0 with
      | ok => simp [h0]
      | otherErr => simp [h0]
      | ioError =>
        simp only [h0]
        rw [retryOnce]
        cases h1 : oc 1 with
        | ok => simp
        | otherErr => simp
        | ioError => simp
  · simp [hf]

/-- Counterexample to C2 as stated: a message whose processing raises an
error outside the incomplete-data class terminates `run_single`'s loop
(`runSingle` reports termination at message index 0 instead of
continuing). -/
theorem c2_counterexample :
    (runSingle { instruments := ["avhrr"], process_only_once := "false" }
        initOrchState
        [({ mtype := "file", platform_name := some "NOAA-19", start_time := some 100,
            sensor := ["avhrr"] }, fun _ => Outcome.otherErr)]).2.2 = some 0 := by
  decide

/-- C2 (amended): only the incomplete-data class (`IOError`) is caught by
`run_single`'s per-message retry loop — messages whose attempts are all
`ok`/`IOError` never terminate the loop; an error of any other class
raised on the decisive attempt propagates and terminates the loop. -/
theorem c2_amended :
    (∀ (cfg : TdConfig) (s : OrchState) (msgs : List (Msg × (Nat → Outcome))),
        (∀ e ∈ msgs, ∀ k, e.2 k ≠ Outcome.otherErr) →
        (runSingle cfg s msgs).2.2 = none) ∧
    (∀ (cfg : TdConfig) (s : OrchState) (msg : Msg) (oc : Nat → Outcome),
        (processMessage cfg s msg oc).2.2 = true ↔
          (filterPass cfg msg = true ∧
            (dedupCheck cfg s.heap s.previous_pass msg).1 = false ∧
            (oc 0 = Outcome.otherErr ∨
              (oc 0 = Outcome.ioError ∧ oc 1 = Outcome.otherErr)))) := by
  constructor
  · intro cfg s msgs
    induction msgs generalizing s with
    | nil => intro _; rfl
    | cons e rest ih =>
      intro h
      obtain ⟨msg, oc⟩ := e
      rw [runSingle]
      have hr : (processMessage cfg s msg oc).2.2 = false :=
        processMessage_no_other cfg s msg oc (h (msg, oc) (by simp))
      simp only [hr, Bool.false_eq_true, if_false]
      have := ih (processMessage cfg s msg oc).1 (fun e he k => h e (by simp [he]) k)
      simp [this]
  · exact processMessage_raised_iff

/-- Witness for C2 (amended): a doubly-failing (`IOError`) single message
does not terminate the loop. -/
theorem c2_amended_witness :
    (runSingle { instruments := ["avhrr"], process_only_once := "false" }
        initOrchState
        [({ mtype := "file", platform_name := some "NOAA-19", start_time := some 100,
            sensor := ["avhrr"] }, fun _ => Outcome.ioError)]).2.2 = none := by
  refine c2_amended.1 _ _ _ ?_
  intro e he k
  simp only [List.mem_singleton] at he
  subst he
  simp

/-! ## Claim C4: the retry bound -/

/-- If every group load fails and some group is actually processed, the
group loop makes exactly one load attempt and clears `_data_ok`. -/
lemma dpGroupsLoop_allfail (gs : List GroupIn)
    (hload : ∀ g ∈ gs, g.loadOk = false) (hsk : ∃ g ∈ gs, g.skip = false) :
    (dpGroupsLoop gs).1 = [PEvent.loadAttempt] ∧ (dpGroupsLoop gs).2 = false := by
  induction gs with
  | nil => simp at hsk
  | cons g rest ih =>
    rw [dpGroupsLoop]
    by_cases hgs : g.skip
    · simp only [hgs, if_true]
      refine ih (fun g' hg' => hload g' (by simp [hg'])) ?_
      rcases hsk with ⟨g', hg', hg's⟩
      rcases List.mem_cons.mp hg' with rfl | hg'
      · rw [hg's] at hgs
        cases hgs
      · exact ⟨g', hg', hg's⟩
    · have : g.loadOk = false := hload g (by simp)
      simp [hgs, this]

/-- C4: a message whose channel load always raises the incomplete-data
error is attempted exactly twice — the events are one config reload, a
processing attempt, the fixed 2-second sleep, and the retry — each
attempt performing exactly one channel load; the second failure takes the
report-failed path (the rollback branch), and the loop proceeds to the
next message rather than terminating. -/
theorem c4_retry_bound (cfg : TdConfig) (s : OrchState) (msg : Msg)
    (oc : Nat → Outcome) (gs : List GroupIn)
    (hf : filterPass cfg msg = true)
    (hns : (dedupCheck cfg s.heap s.previous_pass msg).1 = false)
    (hio : ∀ k, oc k = Outcome.ioError)
    (hload : ∀ g ∈ gs, g.loadOk = false) (hsk : ∃ g ∈ gs, g.skip = false) :
    (processMessage cfg s msg oc).2.1 =
      [Event.configReload, Event.processAttempt, Event.sleep2,
        Event.processAttempt] ∧
    (retryLoop oc).2.1 = true ∧
    (runSingle cfg s [(msg, oc)]).2.2 = none ∧
    (dpGroupsLoop gs).1 = [PEvent.loadAttempt] ∧
    (dpGroupsLoop gs).2 = false := by
  have hrl : retryLoop oc =
      ([Event.processAttempt, Event.sleep2, Event.processAttempt], true, false) := by
    rw [retryLoop, hio 0]
    simp only
    rw [retryOnce, hio 1]
  have hpm : (processMessage cfg s msg oc).2.1 =
      [Event.configReload, Event.processAttempt, Event.sleep2,
        Event.processAttempt] ∧ (processMessage cfg s msg oc).2.2 = false := by
    rw [processMessage]
    simp [hf, hns, hrl]
  refine ⟨hpm.1, by rw [hrl], ?_, dpGroupsLoop_allfail gs hload hsk⟩
  rw [runSingle]
  simp only [hpm.2, Bool.false_eq_true, if_false]
  rfl

/-- Witness for C4 at concrete inputs. -/
theorem c4_retry_bound_witness :
    (processMessage { instruments := ["avhrr"], process_only_once := "false" }
        initOrchState
        { mtype := "file", platform_name := some "NOAA-19", start_time := some 100,
          sensor := ["avhrr"] } (fun _ => Outcome.ioError)).2.1 =
      [Event.configReload, Event.processAttempt, Event.sleep2,
        Event.processAttempt] :=
  (c4_retry_bound { instruments := ["avhrr"], process_only_once := "false" }
    initOrchState
    { mtype := "file", platform_name := some "NOAA-19", start_time := some 100,
      sensor := ["avhrr"] } (fun _ => Outcome.ioError)
    [{ skip := false, loadOk := false, areaEnqueues := [] }]
    (by decide) (by decide) (fun _ => rfl)
    (fun g hg => by simp only [List.mem_singleton] at hg; rw [hg])
    ⟨{ skip := false, loadOk := false, areaEnqueues := [] }, by simp, rfl⟩).1

/-! ## Claim C6: at-most-once processing -/

/-- Updating a live heap cell is observable at that address. -/
lemma heapGet_heapSet (h : RecHeap) (a : Nat) (r : PassRecord)
    (ha : a < h.length) : heapGet (heapSet h a r) a = r := by
  simp [heapGet, heapSet, List.getD, List.getElem?_set_self ha]

/-- Dedup check for a message whose pair equals the record: skip, heap
untouched. -/
lemma dedupCheck_skip (cfg : TdConfig) (h : RecHeap) (pp : Nat) (msg : Msg)
    (p : String) (st : Int) (hpoo : pooEnabled cfg = true)
    (hp : msg.platform_name = some p) (hst : msg.start_time = some st)
    (hrec : heapGet h pp = ⟨some p, some st⟩) :
    dedupCheck cfg h pp msg = (true, h) := by
  rw [dedupCheck]
  simp [hpoo, hp, hst, hrec]

/-- Dedup check for a message whose pair differs from the record: no
skip, and the record cell now holds the message's pair. -/
lemma dedupCheck_update (cfg : TdConfig) (h : RecHeap) (pp : Nat) (msg : Msg)
    (p : String) (st : Int)
    (hp : msg.platform_name = some p) (hst : msg.start_time = some st)
    (hne : heapGet h pp ≠ ⟨some p, some st⟩) (hlt : pp < h.length) :
    (dedupCheck cfg h pp msg).1 = false ∧
    heapGet (dedupCheck cfg h pp msg).2 pp = ⟨some p, some st⟩ := by
  have hfin : heapGet (heapSet
      (heapSet h pp { heapGet h pp with platform_name := some p }) pp
      { heapGet (heapSet h pp { heapGet h pp with platform_name := some p }) pp
        with start_time := some st }) pp = ⟨some p, some st⟩ := by
    rw [heapGet_heapSet h pp _ hlt]
    rw [heapGet_heapSet _ pp _ (by simpa [heapSet] using hlt)]
  rw [dedupCheck]
  simp only [hp, hst]
  by_cases hpoo : pooEnabled cfg
  · simp only [hpoo, if_true]
    by_cases hrp : (heapGet h pp).platform_name = some p
    · have hrs : ¬((heapGet h pp).start_time = some st) := fun hq => hne (by
        rcases hg : heapGet h pp with ⟨a, b⟩
        simp_all)
      simp only [hrp, if_true, hrs, if_false]
      exact ⟨by trivial, hfin⟩
    · simp only [hrp, if_false]
      exact ⟨by trivial, hfin⟩
  · simp only [hpoo, Bool.false_eq_true, if_false]
    exact ⟨by trivial, hfin⟩

/-- C6: with at-most-once mode enabled, (i) a message whose
`(platform_name, start_time)` pair equals the dedup record is dropped
with no events and no state change; (ii) a message with a differing pair
has the record updated to its pair by the dedup step, before any
processing; (iii) hence two submissions of the same pair yield exactly
one processing attempt (one set of writes). -/
theorem c6_at_most_once :
    (∀ (cfg : TdConfig) (s : OrchState) (msg : Msg) (oc : Nat → Outcome)
        (p : String) (st : Int),
        pooEnabled cfg = true → msg.platform_name = some p →
        msg.start_time = some st →
        heapGet s.heap s.previous_pass = ⟨some p, some st⟩ →
        processMessage cfg s msg oc = (s, [], false)) ∧
    (∀ (cfg : TdConfig) (s : OrchState) (msg : Msg) (p : String) (st : Int),
        msg.platform_name = some p → msg.start_time = some st →
        heapGet s.heap s.previous_pass ≠ ⟨some p, some st⟩ →
        s.previous_pass < s.heap.length →
        (dedupCheck cfg s.heap s.previous_pass msg).1 = false ∧
        heapGet (dedupCheck cfg s.heap s.previous_pass msg).2 s.previous_pass =
          ⟨some p, some st⟩) ∧
    (∀ (cfg : TdConfig) (s : OrchState) (msg : Msg) (oc oc2 : Nat → Outcome)
        (p : String) (st : Int),
        pooEnabled cfg = true → filterPass cfg msg = true →
        msg.platform_name = some p → msg.start_time = some st →
        heapGet s.heap s.previous_pass ≠ ⟨some p, some st⟩ →
        s.previous_pass < s.heap.length →
        oc 0 = Outcome.ok →
        ((runSingle cfg s [(msg, oc), (msg, oc2)]).2.1).count
          Event.processAttempt = 1) := by
  refine ⟨?_, ?_, ?_⟩
  · -- (i) identical pair: skip, no events, no state change
    intro cfg s msg oc p st hpoo hp hst hrec
    have hsk : dedupCheck cfg s.heap s.previous_pass msg = (true, s.heap) :=
      dedupCheck_skip cfg s.heap s.previous_pass msg p st hpoo hp hst hrec
    rw [processMessage]
    by_cases hf : filterPass cfg msg
    · simp [hf, hsk]
    · simp [hf]
  · -- (ii) differing pair: record updated before processing
    intro cfg s msg p st hp hst hne hlt
    exact dedupCheck_update cfg s.heap s.previous_pass msg p st hp hst hne hlt
  · -- (iii) same pair twice: one processing attempt in total
    intro cfg s msg oc oc2 p st hpoo hf hp hst hne hlt h0
    have hd1 := dedupCheck_update cfg s.heap s.previous_pass msg p st hp hst hne hlt
    have hrl : retryLoop oc = ([Event.processAttempt], false, false) := by
      rw [retryLoop, h0]
    have hpm : processMessage cfg s msg oc =
        ({ heap := (dedupCheck cfg s.heap s.previous_pass msg).2,
           previous_pass := s.previous_pass },
         [Event.configReload, Event.processAttempt], false) := by
      rw [processMessage]
      simp only [hf, if_true, hd1.1, Bool.false_eq_true, if_false, hrl]
    have hsk2 : dedupCheck cfg
        (dedupCheck cfg s.heap s.previous_pass msg).2 s.previous_pass msg =
        (true, (dedupCheck cfg s.heap s.previous_pass msg).2) :=
      dedupCheck_skip cfg _ s.previous_pass msg p st hpoo hp hst hd1.2
    have hpm2 : processMessage cfg
        { heap := (dedupCheck cfg s.heap s.previous_pass msg).2,
          previous_pass := s.previous_pass } msg oc2 =
        ({ heap := (dedupCheck cfg s.heap s.previous_pass msg).2,
           previous_pass := s.previous_pass }, [], false) := by
      rw [processMessage]
      simp [hf, hsk2]
    have hrs2 : runSingle cfg
        { heap := (dedupCheck cfg s.heap s.previous_pass msg).2,
          previous_pass := s.previous_pass } [(msg, oc2)] =
        ({ heap := (dedupCheck cfg s.heap s.previous_pass msg).2,
           previous_pass := s.previous_pass }, [], none) := by
      rw [runSingle]
      simp only [hpm2]
      rfl
    have hrs : runSingle cfg s [(msg, oc), (msg, oc2)] =
        ({ heap := (dedupCheck cfg s.heap s.previous_pass msg).2,
           previous_pass := s.previous_pass },
         [Event.configReload, Event.processAttempt], none) := by
      rw [runSingle]
      simp only [hpm, hrs2]
      rfl
    rw [hrs]
    rfl

/-- Witness for C6: the same `("NOAA-19", 100)` message submitted twice
in at-most-once mode yields exactly one processing attempt. -/
theorem c6_at_most_once_witness :
    ((runSingle { instruments := ["avhrr"], process_only_once := "yes" }
        { heap := [⟨none, none⟩], previous_pass := 0 }
        [({ mtype := "file", platform_name := some "NOAA-19", start_time := some 100,
            sensor := ["avhrr"] }, fun _ => Outcome.ok),
         ({ mtype := "file", platform_name := some "NOAA-19", start_time := some 100,
            sensor := ["avhrr"] }, fun _ => Outcome.ok)]).2.1).count
      Event.processAttempt = 1 :=
  c6_at_most_once.2.2 { instruments := ["avhrr"], process_only_once := "yes" }
    { heap := [⟨none, none⟩], previous_pass := 0 }
    { mtype := "file", platform_name := some "NOAA-19", start_time := some 100,
      sensor := ["avhrr"] } (fun _ => Outcome.ok) (fun _ => Outcome.ok)
    "NOAA-19" 100 (by decide) (by decide) rfl rfl (by decide) (by decide) rfl

/-! ## Claim C9: the boundary tracer at sampling frequency 1 -/

/-- At frequency 1 the extended slice keeps every element. -/
lemma everyNth_one (l : List α) : everyNth 1 l = l := by
  rw [everyNth]
  induction l with
  | nil => rfl
  | cons a rest ih => simpa [everyNthAux] using ih

/-- The defaulted last element of a non-empty list is a member. -/
lemma getLastD_mem (l : List Nat) : ∀ (d : Nat), l ≠ [] → l.getLastD d ∈ l := by
  induction l with
  | nil => intro d h; exact absurd rfl h
  | cons a t ih =>
    intro d _
    rw [List.getLastD_cons]
    cases t with
    | nil => simp [List.getLastD]
    | cons b u => exact List.mem_cons_of_mem a (ih a (by simp))

/-- `polyStep` on a row with no valid pixel does nothing. -/
lemma polyStep_invalid (mask : List (List Bool)) (st : PolyState) (line : Nat)
    (h : colsAt mask line = []) : polyStep mask 1 st line = st := by
  rw [polyStep]
  simp [h]

/-- `polyStep` at frequency 1 on the first valid row (no previous valid
line): append the row's extremes to the halves. -/
lemma polyStep_first (mask : List (List Bool)) (st : PolyState) (line : Nat)
    (h : colsAt mask line ≠ []) (hlv : st.last_valid = none) :
    polyStep mask 1 st line =
      { polygons := st.polygons,
        left := st.left ++ [(line, (colsAt mask line).headD 0)],
        right := st.right ++ [(line, (colsAt mask line).getLastD 0)],
        count := st.count + 1, last_valid := some line } := by
  rw [polyStep]
  simp [h, hlv, Nat.mod_one, List.isEmpty_iff]

/-- `polyStep` at frequency 1 on a row adjacent to the previous valid
line: extend the current halves. -/
lemma polyStep_adjacent (mask : List (List Bool)) (st : PolyState)
    (line lvl : Nat) (h : colsAt mask line ≠ [])
    (hlv : st.last_valid = some lvl) (hadj : lvl + 1 = line) :
    polyStep mask 1 st line =
      { polygons := st.polygons,
        left := st.left ++ [(line, (colsAt mask line).headD 0)],
        right := st.right ++ [(line, (colsAt mask line).getLastD 0)],
        count := st.count + 1, last_valid := some line } := by
  rw [polyStep]
  simp [h, hlv, hadj, Nat.mod_one, List.isEmpty_iff]

/-- `polyStep` at frequency 1 after a gap: close the polygon (appending
the interior of the last valid row to the left half) and start a new one
from the current row. -/
lemma polyStep_close (mask : List (List Bool)) (st : PolyState)
    (line lvl : Nat) (h : colsAt mask line ≠ [])
    (hlv : st.last_valid = some lvl) (hadj : lvl + 1 ≠ line) :
    polyStep mask 1 st line =
      { polygons := st.polygons ++
          [(st.left ++ (((colsAt mask lvl).drop 1).dropLast).map
              (fun c => (lvl, c))).reverse ++ st.right],
        left := [(line, (colsAt mask line).headD 0)],
        right := ((colsAt mask line).drop 1).map (fun c => (line, c)),
        count := 1, last_valid := some line } := by
  rw [polyStep]
  simp [h, hlv, hadj, Nat.mod_one, everyNth_one, List.isEmpty_iff]

/-- Unfolding `runsUpTo` over an invalid row. -/
lemma runsUpTo_succ_invalid (mask : List (List Bool)) (n : Nat)
    (h : validRow mask n = false) : runsUpTo mask (n + 1) = runsUpTo mask n := by
  rw [runsUpTo, runsUpTo, List.range_succ, List.foldl_append]
  simp [h]

/-- Unfolding `runsUpTo` over a valid row. -/
lemma runsUpTo_succ_valid (mask : List (List Bool)) (n : Nat)
    (h : validRow mask n = true) :
    runsUpTo mask (n + 1) = snocRun (runsUpTo mask n) n := by
  rw [runsUpTo, runsUpTo, List.range_succ, List.foldl_append]
  simp [h]

lemma snocRun_concat_adj (gs : List (List Nat)) (g : List Nat) (x : Nat)
    (h : g.getLastD 0 + 1 = x) :
    snocRun (gs ++ [g]) x = gs ++ [g ++ [x]] := by
  rw [snocRun, List.getLast?_concat]
  rw [List.getLastD_eq_getLast?] at h
  simp [h]

lemma snocRun_concat_new (gs : List (List Nat)) (g : List Nat) (x : Nat)
    (h : g.getLastD 0 + 1 ≠ x) :
    snocRun (gs ++ [g]) x = (gs ++ [g]) ++ [[x]] := by
  rw [snocRun, List.getLast?_concat]
  rw [List.getLastD_eq_getLast?] at h
  simp [h]

/-- Loop invariant of the row scan at frequency 1: the closed polygons
correspond one-to-one, in order, to the finished runs, each containing
the extreme columns of every row of its run; the halves under
construction contain the extremes of every row of the current run; and
`last_valid` points at the end of the current run. -/
def PolyInv (mask : List (List Bool)) (n : Nat) (st : PolyState) : Prop :=
  (runsUpTo mask n = [] ∧ st = initPoly) ∨
  (∃ gs cur, runsUpTo mask n = gs ++ [cur] ∧
    st.polygons.length = gs.length ∧
    (∀ pr ∈ gs.zip st.polygons, ∀ r ∈ pr.1,
      (r, leftmostCol mask r) ∈ pr.2 ∧ (r, rightmostCol mask r) ∈ pr.2) ∧
    (∀ r ∈ cur, (r, leftmostCol mask r) ∈ st.left ∧
      ((r, rightmostCol mask r) ∈ st.left ∨ (r, rightmostCol mask r) ∈ st.right)) ∧
    st.left ≠ [] ∧
    cur ≠ [] ∧
    st.last_valid = some (cur.getLastD 0))

/-- The invariant is preserved by one row of the scan. -/
lemma polyInv_step (mask : List (List Bool)) (n : Nat) (st : PolyState)
    (hinv : PolyInv mask n st) : PolyInv mask (n + 1) (polyStep mask 1 st n) := by
  cases hv : validRow mask n with
  | false =>
    have hcols : colsAt mask n = [] := by
      rw [validRow] at hv
      simpa using hv
    rw [polyStep_invalid mask st n hcols]
    rcases hinv with ⟨hrun, hst⟩ | ⟨gs, cur, hrun, hlen, hzip, hcur, hleft, hcne, hlv⟩
    · exact Or.inl ⟨by rw [runsUpTo_succ_invalid mask n hv, hrun], hst⟩
    · exact Or.inr ⟨gs, cur, by rw [runsUpTo_succ_invalid mask n hv, hrun],
        hlen, hzip, hcur, hleft, hcne, hlv⟩
  | true =>
    have hcols : colsAt mask n ≠ [] := by
      rw [validRow] at hv
      simpa using hv
    rcases hinv with ⟨hrun, hst⟩ | ⟨gs, cur, hrun, hlen, hzip, hcur, hleft, hcne, hlv⟩
    · -- the very first valid row of the mask
      subst hst
      rw [polyStep_first mask initPoly n hcols rfl]
      refine Or.inr ⟨[], [n], ?_, rfl, ?_, ?_, ?_, by simp, ?_⟩
      · rw [runsUpTo_succ_valid mask n hv, hrun]
        rfl
      · intro pr hpr
        simp [initPoly] at hpr
      · intro r hr
        simp only [List.mem_singleton] at hr
        subst hr
        refine ⟨?_, Or.inr ?_⟩
        · simp [initPoly, leftmostCol]
        · simp [initPoly, rightmostCol]
      · simp [initPoly]
      · rfl
    · by_cases hadj : cur.getLastD 0 + 1 = n
      · -- adjacent row: the current run continues
        rw [polyStep_adjacent mask st n (cur.getLastD 0) hcols hlv hadj]
        refine Or.inr ⟨gs, cur ++ [n], ?_, hlen, hzip, ?_, ?_, by simp, ?_⟩
        · rw [runsUpTo_succ_valid mask n hv, hrun, snocRun_concat_adj gs cur n hadj]
        · intro r hr
          rcases List.mem_append.mp hr with hr | hr
          · obtain ⟨h1, h2⟩ := hcur r hr
            refine ⟨List.mem_append_left _ h1, ?_⟩
            rcases h2 with h2 | h2
            · exact Or.inl (List.mem_append_left _ h2)
            · exact Or.inr (List.mem_append_left _ h2)
          · simp only [List.mem_singleton] at hr
            subst hr
            refine ⟨List.mem_append_right _ ?_, Or.inr (List.mem_append_right _ ?_)⟩
            · simp [leftmostCol]
            · simp [rightmostCol]
        · simp
        · simp [List.getLastD_concat]
      · -- gap: the previous run is closed, a new one starts at this row
        rw [polyStep_close mask st n (cur.getLastD 0) hcols hlv hadj]
        refine Or.inr ⟨gs ++ [cur], [n], ?_, ?_, ?_, ?_, by simp, by simp, ?_⟩
        · rw [runsUpTo_succ_valid mask n hv, hrun, snocRun_concat_new gs cur n hadj]
        · simp [hlen]
        · rw [List.zip_append hlen.symm]
          intro pr hpr
          rcases List.mem_append.mp hpr with hpr | hpr
          · exact hzip pr hpr
          · have hpr' : pr = (cur,
                (st.left ++ (((colsAt mask (cur.getLastD 0)).drop 1).dropLast).map
                  (fun c => (cur.getLastD 0, c))).reverse ++ st.right) := by
              simpa using hpr
            subst hpr'
            intro r hr
            obtain ⟨h1, h2⟩ := hcur r hr
            constructor
            · exact List.mem_append_left _
                (List.mem_reverse.mpr (List.mem_append_left _ h1))
            · rcases h2 with h2 | h2
              · exact List.mem_append_left _
                  (List.mem_reverse.mpr (List.mem_append_left _ h2))
              · exact List.mem_append_right _ h2
        · intro r hr
          simp only [List.mem_singleton] at hr
          subst hr
          refine ⟨by simp [leftmostCol], ?_⟩
          rcases hc : colsAt mask r with _ | ⟨c, t⟩
          · exact absurd hc hcols
          · cases t with
            | nil =>
              left
              simp [rightmostCol, hc]
            | cons c2 u =>
              right
              simp only [rightmostCol, hc, List.getLastD_cons, List.drop_one,
                List.tail_cons]
              refine List.mem_map.mpr ⟨u.getLastD c2, ?_, rfl⟩
              have hmem := getLastD_mem (c2 :: u) c (by simp)
              rwa [List.getLastD_cons] at hmem
        · rfl

/-- The invariant holds after scanning any prefix of the mask. -/
lemma polyInv_fold (mask : List (List Bool)) :
    ∀ n, PolyInv mask n ((List.range n).foldl (polyStep mask 1) initPoly) := by
  intro n
  induction n with
  | zero => exact Or.inl ⟨rfl, rfl⟩
  | succ n ih =>
    rw [List.range_succ, List.foldl_append, List.foldl_cons, List.foldl_nil]
    exact polyInv_step mask n _ ih

/-- At frequency 1 the trailing fix-up of `get_polygons_positions` is a
no-op (`(count - 1) % 1 == 0` always holds), leaving only the final
closing of the half-boundaries. -/
lemma gpp_one (mask : List (List Bool)) :
    get_polygons_positions mask 1 =
      (let st := (List.range mask.length).foldl (polyStep mask 1) initPoly
       if (st.left.reverse ++ st.right).isEmpty then st.polygons
       else st.polygons ++ [st.left.reverse ++ st.right]) := by
  rw [get_polygons_positions]
  have h1 : ∀ c : Nat, ¬(((c : Int) - 1) % ((1 : Nat) : Int) ≠ 0) := by
    intro c
    simp [Int.emod_one]
  simp only [h1, if_false]
  cases hlv : (List.foldl (polyStep mask 1) initPoly (List.range mask.length)).last_valid with
  | none => rfl
  | some lvl => rfl

/-- C9: at sampling frequency 1, `get_polygons_positions` returns exactly
one polygon per maximal contiguous run of rows containing valid pixels,
in order, and the polygon of each run contains, for every row of the run,
both the leftmost and the rightmost valid column index of that row. -/
theorem c9_polygons (mask : List (List Bool)) :
    (get_polygons_positions mask 1).length = (runs mask).length ∧
    ∀ pr ∈ (runs mask).zip (get_polygons_positions mask 1), ∀ r ∈ pr.1,
      (r, leftmostCol mask r) ∈ pr.2 ∧ (r, rightmostCol mask r) ∈ pr.2 := by
  have hinv := polyInv_fold mask mask.length
  rw [gpp_one]
  rw [runs]
  rcases hinv with ⟨hrun, hst⟩ | ⟨gs, cur, hrun, hlen, hzip, hcur, hleft, hcne, hlv⟩
  · rw [hrun, hst]
    exact ⟨rfl, by intro pr hpr; simp [initPoly] at hpr⟩
  · rw [hrun]
    set st := (List.range mask.length).foldl (polyStep mask 1) initPoly with hstdef
    have hres : (st.left.reverse ++ st.right).isEmpty = false := by
      rcases hl : st.left with _ | ⟨a, t⟩
      · exact absurd hl hleft
      · simp [hl]
    rw [if_neg (by simp [hres])]
    constructor
    · simp [hlen]
    · rw [List.zip_append hlen.symm]
      intro pr hpr
      rcases List.mem_append.mp hpr with hpr | hpr
      · exact hzip pr hpr
      · have hpr' : pr = (cur, st.left.reverse ++ st.right) := by
          simpa using hpr
        subst hpr'
        intro r hr
        obtain ⟨h1, h2⟩ := hcur r hr
        refine ⟨List.mem_append_left _ (List.mem_reverse.mpr h1), ?_⟩
        rcases h2 with h2 | h2
        · exact List.mem_append_left _ (List.mem_reverse.mpr h2)
        · exact List.mem_append_right _ h2

/-- Witness for C9 on a concrete mask with two runs (rows 0, and 2-3):
the second polygon contains the extremes of each of its rows. -/
theorem c9_polygons_witness :
    (2, 0) ∈ ([(3, 1), (2, 0), (2, 1), (2, 2), (3, 1)] : List (Nat × Nat)) ∧
    (2, 2) ∈ ([(3, 1), (2, 0), (2, 1), (2, 2), (3, 1)] : List (Nat × Nat)) :=
  (c9_polygons [[false, true, false], [true, true, true],
      [false, false, false], [true, false, true]]).2
    ([2, 3], [(3, 1), (2, 0), (2, 1), (2, 2), (3, 1)]) (by decide) 2 (by decide)

end Producer
